import Mathlib

/-!
Verification of the xCall signaling core against its specification.

The repository contains two parallel implementations of the same
matchmaking/relay engine:

* the Bun server (`server/signal/roomManager.ts` + `server/signal/signaling.ts`),
  embedded below in namespace `Bun`;
* the Cloudflare Durable Object (`SignalingServer` in the unnamed worker
  source), embedded below in namespace `DO`.

JavaScript `Map`s are embedded as association lists with `Map.get` /
`Map.set` / `Map.delete` semantics (`aget` / `aset` / `adel`).  WebSocket
delivery is embedded as an explicit list of emitted actions; the broker
state is threaded functionally.  Random identifiers (`crypto.randomUUID`,
`generateId`) do not influence control flow except as map keys, so peer
ids are taken as inputs of the connection events and room ids are drawn
from a fresh counter.
-/

/-- WebRTC negotiation roles, as in both implementations. -/
inductive Role
  | offerer
  | answerer
deriving DecidableEq, Repr

/-- The three negotiation message tags (`'offer' | 'answer' | 'ice'`),
which the Durable Object source handles uniformly. -/
inductive NegKind
  | offer
  | answer
  | ice
deriving DecidableEq, Repr

/-- Association list used to embed a JavaScript `Map`. -/
abbrev JMap (κ α : Type) : Type := List (κ × α)

/-- Embeds `Map.get`: find the value stored under a key, if any. -/
def aget {κ α : Type} [DecidableEq κ] : JMap κ α → κ → Option α
  | [], _ => none
  | (k', v) :: rest, k => if k' = k then some v else aget rest k

/-- Embeds `Map.delete`: remove every binding of the key. -/
def adel {κ α : Type} [DecidableEq κ] (l : JMap κ α) (k : κ) : JMap κ α :=
  l.filter (fun kv => kv.1 ≠ k)

/-- Embeds `Map.set`: bind the key to the value, replacing any old binding. -/
def aset {κ α : Type} [DecidableEq κ] (l : JMap κ α) (k : κ) (v : α) : JMap κ α :=
  (k, v) :: adel l k

/-! ## The Bun server implementation

Embeds `server/signal/roomManager.ts` and `server/signal/signaling.ts`.
In the source each `Peer` record carries its id, its WebSocket handle and a
`joinedAt` timestamp; the handle is determined by the id (one socket per
generated user id) and the timestamp is used only for logging, so peers are
embedded by their id.  A `Room`'s generated `id` field is likewise used only
for logging and is omitted; rooms are looked up by member ids only.
-/

namespace Bun

/-- A room: `peer1` was waiting (future answerer), `peer2` just joined
(future offerer).  Mirrors `Room` in `roomManager.ts`. -/
structure Room where
  peer1 : String
  peer2 : String
deriving DecidableEq, Repr

/-- The module-level mutable state of `roomManager.ts`:
`peers` map, FIFO `queue`, and the double-indexed `rooms` map. -/
structure BState where
  peers : JMap String Unit
  queue : List String
  rooms : JMap String Room
deriving DecidableEq, Repr

/-- Initial module state: all three structures empty. -/
def initState : BState := { peers := [], queue := [], rooms := [] }

/-- Messages the server sends to clients (`ServerMessage` in `signaling.ts`).
ICE candidates are opaque to the broker and embedded as strings. -/
inductive SMsg
  | queued
  | matched (role : Role) (peerId : String)
  | offer (sdp : String)
  | answer (sdp : String)
  | ice (candidate : String)
  | peerLeft
  | error (message : String)
deriving DecidableEq, Repr

/-- An observable effect on a connection: a message delivery, or closing the
connection.  The broker code never closes a socket, so `close` is never
emitted; it is included so that "the connection is not closed" is statable. -/
inductive Action
  | send (dst : String) (msg : SMsg)
  | close (id : String)
deriving DecidableEq, Repr

/-- Embeds `createPeer`: registers (or re-registers) the peer in the map. -/
def createPeer (s : BState) (id : String) : BState :=
  { s with peers := aset s.peers id () }

/-- Embeds `enqueue`: if someone is waiting, shift the queue head and create
a room double-indexed under both member ids; otherwise push onto the queue. -/
def enqueue (s : BState) (id : String) : BState × Option Room :=
  match s.queue with
  | w :: rest =>
    let room : Room := { peer1 := w, peer2 := id }
    ({ s with queue := rest, rooms := aset (aset s.rooms w room) id room }, some room)
  | [] => ({ s with queue := s.queue ++ [id] }, none)

/-- Embeds `getPartner`: the other member of the sender's room, if any. -/
def getPartner (s : BState) (id : String) : Option String :=
  (aget s.rooms id).map (fun room => if room.peer1 = id then room.peer2 else room.peer1)

/-- Removes the first queue entry with the given id (embeds
`findIndex` + `splice(i, 1)`). -/
def removeFirstById : List String → String → List String
  | [], _ => []
  | x :: rest, id => if x = id then rest else x :: removeFirstById rest id

/-- Embeds `removePeer`: unregister, then remove from the queue if waiting
(no partner), else dissolve the room if paired (returning the partner). -/
def removePeer (s : BState) (id : String) : BState × Option String :=
  match aget s.peers id with
  | none => (s, none)
  | some _ =>
    let s1 := { s with peers := adel s.peers id }
    if s1.queue.contains id then
      ({ s1 with queue := removeFirstById s1.queue id }, none)
    else
      match aget s1.rooms id with
      | some room =>
        let partner := if room.peer1 = id then room.peer2 else room.peer1
        ({ s1 with rooms := adel (adel s1.rooms room.peer1) room.peer2 }, some partner)
      | none => (s1, none)

/-- Embeds `handleJoin`: create the peer, try to match, notify. -/
def handleJoin (s : BState) (id : String) : BState × List Action :=
  let s1 := createPeer s id
  match enqueue s1 id with
  | (s2, some room) =>
    (s2, [.send room.peer1 (.matched .answerer room.peer2),
          .send room.peer2 (.matched .offerer room.peer1)])
  | (s2, none) => (s2, [.send id .queued])

/-- Embeds `handleLeave`: remove the peer; notify the partner if one existed. -/
def handleLeave (s : BState) (id : String) : BState × List Action :=
  match removePeer s id with
  | (s1, some partner) => (s1, [.send partner .peerLeft])
  | (s1, none) => (s1, [])

/-- Embeds `handleClose` (the WebSocket close handler): identical cleanup. -/
def handleClose (s : BState) (id : String) : BState × List Action :=
  match removePeer s id with
  | (s1, some partner) => (s1, [.send partner .peerLeft])
  | (s1, none) => (s1, [])

/-- Embeds `forwardToPartner`: deliver to the partner if paired, otherwise
silently ignore (the source's explicit comment). -/
def forwardToPartner (s : BState) (id : String) (msg : SMsg) : BState × List Action :=
  match getPartner s id with
  | some partner => (s, [.send partner msg])
  | none => (s, [])

/-- Messages the client can send (`ClientMessage` in `signaling.ts`). -/
inductive CMsg
  | join
  | leave
  | offer (sdp : String)
  | answer (sdp : String)
  | ice (candidate : String)
deriving DecidableEq, Repr

/-- Outcome of the boundary parse of a raw frame: unparsable JSON, a
recognized client message, or JSON with an unknown `type` tag. -/
inductive Inbound
  | malformed
  | msg (m : CMsg)
  | unknown
deriving DecidableEq, Repr

/-- Embeds `handleMessage`: parse-and-dispatch on the message type. -/
def handleMessage (s : BState) (id : String) (raw : Inbound) : BState × List Action :=
  match raw with
  | .malformed => (s, [.send id (.error "Invalid JSON")])
  | .msg .join => handleJoin s id
  | .msg .leave => handleLeave s id
  | .msg (.offer sdp) => forwardToPartner s id (.offer sdp)
  | .msg (.answer sdp) => forwardToPartner s id (.answer sdp)
  | .msg (.ice c) => forwardToPartner s id (.ice c)
  | .unknown => (s, [.send id (.error "Unknown message type")])

/-- A transport event: an inbound frame from a connection, or its closure.
The `handleOpen` handler only logs, so connection opening has no effect. -/
inductive Event
  | msg (id : String) (raw : Inbound)
  | close (id : String)
deriving DecidableEq, Repr

/-- One lifecycle event. -/
def step (s : BState) (e : Event) : BState × List Action :=
  match e with
  | .msg id raw => handleMessage s id raw
  | .close id => handleClose s id

/-- Run a sequence of lifecycle events, accumulating all emitted actions. -/
def run (s : BState) : List Event → BState × List Action
  | [] => (s, [])
  | e :: rest =>
    let r1 := step s e
    let r2 := run r1.1 rest
    (r2.1, r1.2 ++ r2.2)

end Bun

/-! ## The Cloudflare Durable Object implementation

Embeds the `SignalingServer` class from the unnamed worker source.  Peers
are keyed by their `crypto.randomUUID()` id, taken here as an input of the
connection event; room ids (also `crypto.randomUUID()`, always fresh) are
drawn from a counter `nextRoom`.  A peer record keeps its `roomId` and the
state of its WebSocket: `wsOpen` embeds `ws.readyState === WebSocket.OPEN`.
The transport may move a socket out of the OPEN state before the `close`
event is dispatched; the event `dropSocket` below models exactly that
window, which is what the `readyState` guards in the source defend against.
-/

namespace DO

/-- One connected peer (`Peer` in the worker source): its socket state and
current room, if any. -/
structure DPeer where
  wsOpen : Bool
  roomId : Option Nat
deriving DecidableEq, Repr

/-- A room (`Room` in the worker source): `peer1` was waiting, `peer2`
triggered the match. -/
structure DRoom where
  peer1 : String
  peer2 : String
deriving DecidableEq, Repr

/-- The Durable Object's in-memory state: `peers`, `rooms` (keyed by room
id), the waiting `queue`, and the fresh-room-id source. -/
structure DState where
  peers : JMap String DPeer
  rooms : JMap Nat DRoom
  queue : List String
  nextRoom : Nat
deriving DecidableEq, Repr

/-- Initial Durable Object state. -/
def initState : DState := { peers := [], rooms := [], queue := [], nextRoom := 0 }

/-- Outbound messages (`ServerMessage` in the worker source).  The interface
has optional `role`, `sdp`, `candidate` and `message` fields and - unlike the
Bun implementation - no `peerId` field; `matched` therefore carries only the
role.  `sdp` and `candidate` payloads are opaque to the broker and embedded
as optional strings. -/
inductive DMsg
  | queued
  | matched (role : Role)
  | neg (k : NegKind) (sdp : Option String) (candidate : Option String)
  | peerLeft
  | error (message : String)
deriving DecidableEq, Repr

/-- Observable effect on a connection; the broker never closes sockets, so
`close` is never emitted (included to make that statable). -/
inductive DAction
  | send (dst : String) (msg : DMsg)
  | close (id : String)
deriving DecidableEq, Repr

/-- Embeds `sendToPeer`: deliver only if the peer is registered and its
socket is OPEN; otherwise silently drop. -/
def sendToPeer (s : DState) (id : String) (m : DMsg) : List DAction :=
  match aget s.peers id with
  | some p => if p.wsOpen then [.send id m] else []
  | none => []

/-- Embeds `handleWebSocket` registration: accept the socket and store a
fresh peer with no room. -/
def connect (s : DState) (id : String) : DState :=
  { s with peers := aset s.peers id { wsOpen := true, roomId := none } }

/-- Models the transport taking a socket out of the OPEN state before its
`close` event is dispatched (the stale-queue-entry window). -/
def dropSocket (s : DState) (id : String) : DState :=
  { s with peers :=
      match aget s.peers id with
      | some p => aset s.peers id { p with wsOpen := false }
      | none => s.peers }

/-- Embeds `handleLeave`: filter the peer out of the queue; if it has a room,
notify the partner, clear the partner's room reference, delete the room, and
clear the peer's own room reference.  The peer stays registered. -/
def handleLeave (s : DState) (peerId : String) : DState × List DAction :=
  match aget s.peers peerId with
  | none => (s, [])
  | some peer =>
    let s1 := { s with queue := s.queue.filter (fun id => id ≠ peerId) }
    match peer.roomId with
    | none => (s1, [])
    | some rid =>
      match aget s1.rooms rid with
      | some room =>
        let partnerId := if room.peer1 = peerId then room.peer2 else room.peer1
        let out := sendToPeer s1 partnerId .peerLeft
        let s2 :=
          match aget s1.peers partnerId with
          | some partner =>
            { s1 with peers := aset s1.peers partnerId { partner with roomId := none } }
          | none => s1
        let s3 := { s2 with rooms := adel s2.rooms rid }
        ({ s3 with peers := aset s3.peers peerId { peer with roomId := none } }, out)
      | none =>
        ({ s1 with peers := aset s1.peers peerId { peer with roomId := none } }, [])

/-- Embeds the `close` event listener: run `handleLeave`, then unregister. -/
def closeWs (s : DState) (id : String) : DState × List DAction :=
  let r := handleLeave s id
  ({ r.1 with peers := adel r.1.peers id }, r.2)

/-- Embeds the matching loop of `handleJoin`.  In the source, `handleJoin`
shifts the queue head and, when the dequeued partner is missing or its
socket is not OPEN, discards it and recurses into `handleJoin(peerId)`.  On
that re-entry the peer is still registered, its `roomId` is already `null`
(the leave step of the first entry cleared it, and the guard prevents a
second leave) and the queue no longer contains `peerId` (filtered on first
entry; `shift` only removes heads), so each re-entry reduces to scanning
the rest of the queue.  `joinScan` is that scan, structurally recursive on
the pending queue suffix; the state's stored queue equals the scanned list
and is written back when the scan stops.  `peer` is the joiner's record
(the live object reference held by the source across the mutation). -/
def joinScan (peerId : String) (peer : DPeer) (s : DState) :
    List String → DState × List DAction
  | [] =>
    let s5 : DState := { s with queue := [peerId] }
    (s5, sendToPeer s5 peerId .queued)
  | partnerId :: rest =>
    match aget s.peers partnerId with
    | some partner =>
      if partner.wsOpen then
        let rid := s.nextRoom
        let room : DRoom := { peer1 := partnerId, peer2 := peerId }
        let peerNow := (aget s.peers peerId).getD peer
        let s4 : DState := { s with
          queue := rest
          rooms := aset s.rooms rid room
          peers := aset (aset s.peers peerId { peerNow with roomId := some rid })
            partnerId { partner with roomId := some rid }
          nextRoom := s.nextRoom + 1 }
        (s4, sendToPeer s4 partnerId (.matched .answerer)
              ++ sendToPeer s4 peerId (.matched .offerer))
      else joinScan peerId peer s rest
    | none => joinScan peerId peer s rest

/-- Embeds `handleJoin`: unknown peers are ignored; a peer already in a room
leaves it first (partner notified); the peer's own stale queue entries are
filtered out; then the queue is scanned for a live partner. -/
def handleJoin (s : DState) (peerId : String) : DState × List DAction :=
  match aget s.peers peerId with
  | none => (s, [])
  | some peer =>
    let p1 := if peer.roomId.isSome then handleLeave s peerId else (s, [])
    let s2 : DState := { p1.1 with queue := p1.1.queue.filter (fun id => id ≠ peerId) }
    let r := joinScan peerId peer s2 s2.queue
    (r.1, p1.2 ++ r.2)

/-- Embeds `forwardToPartner`: if the sender is unknown or has no room,
report "Not in a room" to the sender; if the room id dangles, report
"Room not found"; otherwise deliver the payload, rebuilt verbatim from the
inbound envelope, to the room's other member. -/
def forwardToPartner (s : DState) (peerId : String) (k : NegKind)
    (sdp candidate : Option String) : DState × List DAction :=
  match aget s.peers peerId with
  | none => (s, sendToPeer s peerId (.error "Not in a room"))
  | some peer =>
    match peer.roomId with
    | none => (s, sendToPeer s peerId (.error "Not in a room"))
    | some rid =>
      match aget s.rooms rid with
      | none => (s, sendToPeer s peerId (.error "Room not found"))
      | some room =>
        let partnerId := if room.peer1 = peerId then room.peer2 else room.peer1
        (s, sendToPeer s partnerId (.neg k sdp candidate))

/-- Outcome of the boundary parse of an inbound frame (`ClientMessage`
plus the two failure shapes handled by the source): unparsable JSON, a
recognized message, or an unrecognized `type` tag. -/
inductive DInbound
  | malformed
  | join
  | leave
  | neg (k : NegKind) (sdp : Option String) (candidate : Option String)
  | unknown
deriving DecidableEq, Repr

/-- Embeds the message listener plus `handleMessage`: a JSON parse failure
is caught and reported as "Invalid message format"; recognized types are
dispatched; unknown types are reported as "Unknown message type". -/
def handleMessage (s : DState) (peerId : String) (m : DInbound) : DState × List DAction :=
  match m with
  | .malformed => (s, sendToPeer s peerId (.error "Invalid message format"))
  | .join => handleJoin s peerId
  | .leave => handleLeave s peerId
  | .neg k sdp candidate => forwardToPartner s peerId k sdp candidate
  | .unknown => (s, sendToPeer s peerId (.error "Unknown message type"))

/-- A transport event for the Durable Object: a connection (with its fresh
UUID), an inbound frame, the socket silently leaving the OPEN state, or the
`close` event being dispatched. -/
inductive DEvent
  | connect (id : String)
  | msg (id : String) (m : DInbound)
  | dropSocket (id : String)
  | close (id : String)
deriving DecidableEq, Repr

/-- One lifecycle event. -/
def step (s : DState) (e : DEvent) : DState × List DAction :=
  match e with
  | .connect id => (connect s id, [])
  | .msg id m => handleMessage s id m
  | .dropSocket id => (dropSocket s id, [])
  | .close id => closeWs s id

/-- Run a sequence of lifecycle events, accumulating all emitted actions. -/
def run (s : DState) : List DEvent → DState × List DAction
  | [] => (s, [])
  | e :: rest =>
    let r1 := step s e
    let r2 := run r1.1 rest
    (r2.1, r1.2 ++ r2.2)

/-- The peer is registered and its WebSocket is OPEN
(the condition of the `readyState` guards in the source). -/
def peerOpen (s : DState) (id : String) : Bool :=
  match aget s.peers id with
  | some p => p.wsOpen
  | none => false

/-- A sample state in which the queue head W is a stale entry (its socket has
left the OPEN state but its close event has not yet run), while V further back
in the queue and the joiner P are live. -/
def sampleStaleState : DState :=
  { peers := [("W", { wsOpen := false, roomId := none }),
              ("V", { wsOpen := true, roomId := none }),
              ("P", { wsOpen := true, roomId := none })],
    rooms := [], queue := ["W", "V"], nextRoom := 0 }

end DO

/-! ## Concrete sample states used to exercise the general theorems -/

/-- Bun state with one waiting peer W. -/
def Bun.waitingW : Bun.BState := { peers := [("W", ())], queue := ["W"], rooms := [] }

/-- Bun state with two waiting peers, A ahead of B. -/
def Bun.waitingAB : Bun.BState :=
  { peers := [("A", ()), ("B", ())], queue := ["A", "B"], rooms := [] }

/-- Bun state with a lone queued peer Z. -/
def Bun.queuedZ : Bun.BState := { peers := [("Z", ())], queue := ["Z"], rooms := [] }

/-- Bun state with X and Y registered and paired. -/
def Bun.pairedXY : Bun.BState :=
  { peers := [("X", ()), ("Y", ())], queue := [],
    rooms := [("X", { peer1 := "X", peer2 := "Y" }),
              ("Y", { peer1 := "X", peer2 := "Y" })] }

/-- DO state with one waiting open peer Q and a connected open joiner J. -/
def DO.waitingQ : DO.DState :=
  { peers := [("Q", { wsOpen := true, roomId := none }),
              ("J", { wsOpen := true, roomId := none })],
    rooms := [], queue := ["Q"], nextRoom := 0 }

/-- DO state with a lone queued open peer Z. -/
def DO.queuedZ : DO.DState :=
  { peers := [("Z", { wsOpen := true, roomId := none })],
    rooms := [], queue := ["Z"], nextRoom := 0 }

/-- DO state with U and V registered, open, and paired in room 0. -/
def DO.pairedUV : DO.DState :=
  { peers := [("U", { wsOpen := true, roomId := some 0 }),
              ("V", { wsOpen := true, roomId := some 0 })],
    rooms := [(0, { peer1 := "U", peer2 := "V" })], queue := [], nextRoom := 1 }

/-! ## Basic lemmas about the map embedding -/

theorem aget_adel_self {κ α : Type} [DecidableEq κ] (l : JMap κ α) (k : κ) :
    aget (adel l k) k = none := by
  induction l with
  | nil => rfl
  | cons kv rest ih =>
    obtain ⟨a, v⟩ := kv
    by_cases h : a = k
    · simpa [adel, List.filter_cons, h] using ih
    · simpa [adel, List.filter_cons, h, aget] using ih

theorem aget_adel_ne {κ α : Type} [DecidableEq κ] (l : JMap κ α) (k k' : κ) (h : k' ≠ k) :
    aget (adel l k) k' = aget l k' := by
  induction l with
  | nil => rfl
  | cons kv rest ih =>
    obtain ⟨a, v⟩ := kv
    by_cases hk : a = k
    · subst hk
      simpa [adel, List.filter_cons, aget, Ne.symm h] using ih
    · by_cases hk' : a = k'
      · subst hk'
        simp [adel, List.filter_cons, aget, h]
      · simpa [adel, List.filter_cons, aget, hk, hk'] using ih

theorem aget_aset_self {κ α : Type} [DecidableEq κ] (l : JMap κ α) (k : κ) (v : α) :
    aget (aset l k v) k = some v := by
  simp [aset, aget]

theorem aget_aset_ne {κ α : Type} [DecidableEq κ] (l : JMap κ α) (k k' : κ) (v : α)
    (h : k' ≠ k) : aget (aset l k v) k' = aget l k' := by
  simp [aset, aget, Ne.symm h]
  exact aget_adel_ne l k k' h

/-! ## Unfolding lemmas for the two join paths -/

/-- In the Bun implementation, a join finding a non-empty queue always pairs
the joiner with the queue head: complete description of the resulting state
and notifications. -/
theorem Bun.handleJoin_match_eq (s : Bun.BState) (w : String) (rest : List String) (j : String)
    (hq : s.queue = w :: rest) :
    Bun.handleJoin s j =
      ({ peers := aset s.peers j (), queue := rest,
         rooms := aset (aset s.rooms w { peer1 := w, peer2 := j }) j
           { peer1 := w, peer2 := j } },
       [.send w (.matched .answerer j), .send j (.matched .offerer w)]) := by
  simp [Bun.handleJoin, Bun.createPeer, Bun.enqueue, hq]

/-- In the Bun implementation, a join finding an empty queue enqueues the
joiner and reports `queued`. -/
theorem Bun.handleJoin_empty (s : Bun.BState) (j : String) (hq : s.queue = []) :
    Bun.handleJoin s j =
      ({ peers := aset s.peers j (), queue := [j], rooms := s.rooms },
       [.send j .queued]) := by
  simp [Bun.handleJoin, Bun.createPeer, Bun.enqueue, hq]

/-- A Bun join always (re-)registers the joiner. -/
theorem Bun.handleJoin_registers (s : Bun.BState) (j : String) :
    aget (Bun.handleJoin s j).1.peers j = some () := by
  cases hq : s.queue <;>
    simp [Bun.handleJoin, Bun.createPeer, Bun.enqueue, hq, aget_aset_self]

/-- In the Durable Object, a join by a registered, roomless peer that finds a
registered OPEN partner at the head of the (self-filtered) queue forms a room
with the partner and emits the two role notifications. -/
theorem DO.handleJoin_pairs_head (s : DO.DState) (j q : String) (rest : List String)
    (pj pq : DO.DPeer)
    (hpj : aget s.peers j = some pj) (hr : pj.roomId = none) (hjo : pj.wsOpen = true)
    (hfq : s.queue.filter (fun id => id ≠ j) = q :: rest)
    (hq2 : aget s.peers q = some pq) (hopen : pq.wsOpen = true) :
    DO.handleJoin s j =
      ({ peers := aset (aset s.peers j { pj with roomId := some s.nextRoom })
            q { pq with roomId := some s.nextRoom },
         rooms := aset s.rooms s.nextRoom { peer1 := q, peer2 := j },
         queue := rest,
         nextRoom := s.nextRoom + 1 },
       [.send q (.matched .answerer), .send j (.matched .offerer)]) := by
  have hqmem : q ∈ s.queue.filter (fun id => decide (id ≠ j)) := by
    rw [hfq]; exact List.mem_cons_self _ _
  have hqj : q ≠ j := by simpa using List.of_mem_filter hqmem
  have hfq2 : s.queue.filter (fun id => !decide (id = j)) = q :: rest := by
    simpa using hfq
  simp [DO.handleJoin, hpj, hr, hfq2, DO.joinScan, hq2, hopen, hjo,
    DO.sendToPeer, aget_aset_self, aget_aset_ne _ _ _ _ hqj.symm, hqj]

/-- In the Durable Object, a join by a registered, roomless peer that finds
no queue entry other than possibly its own ends with the joiner enqueued. -/
theorem DO.handleJoin_noPartner (s : DO.DState) (j : String) (pj : DO.DPeer)
    (hpj : aget s.peers j = some pj) (hr : pj.roomId = none)
    (hfq : s.queue.filter (fun id => id ≠ j) = []) :
    DO.handleJoin s j =
      ({ s with queue := [j] },
       DO.sendToPeer ({ s with queue := ([j] : List String) }) j .queued) := by
  have hfq2 : s.queue.filter (fun id => !decide (id = j)) = [] := by
    simpa using hfq
  simp [DO.handleJoin, hpj, hr, hfq2, DO.joinScan]

/-- C1.  The claim says that after any single lifecycle event every peer is in
at most one of the waiting queue and a room.  The Bun implementation violates
this: a peer that sends `join` while already paired is re-registered and
enqueued by `handleJoin` without its old room being dissolved, so afterwards
it is simultaneously in the waiting queue and indexed in the rooms map.
Concretely, after the event sequence join X, join Y, join Y, peer Y is in the
queue while `rooms.get("Y")` still returns the room pairing X and Y. -/
theorem bun_rejoin_paired_breaks_exclusivity :
    "Y" ∈ (Bun.run Bun.initState [.msg "X" (.msg .join), .msg "Y" (.msg .join),
        .msg "Y" (.msg .join)]).1.queue ∧
    aget (Bun.run Bun.initState [.msg "X" (.msg .join), .msg "Y" (.msg .join),
        .msg "Y" (.msg .join)]).1.rooms "Y" = some { peer1 := "X", peer2 := "Y" } := by
  decide

/-- C2.  The claim says every room ever formed has two distinct members, for
every event sequence including a peer joining a second time while queued.  The
Bun implementation violates this: a second `join` from the already-queued peer
X shifts X's own stale queue entry and `createRoom` pairs X with itself, so the
formed room has `peer1 = peer2 = "X"`. -/
theorem bun_double_join_self_room :
    aget (Bun.run Bun.initState [.msg "X" (.msg .join),
        .msg "X" (.msg .join)]).1.rooms "X" = some { peer1 := "X", peer2 := "X" } ∧
    (Bun.run Bun.initState [.msg "X" (.msg .join),
        .msg "X" (.msg .join)]).1.queue = [] := by
  decide

/-! ## Preservation lemmas for the Durable Object leave path -/

/-- `handleLeave` never changes which peers are registered with OPEN sockets. -/
theorem DO.peerOpen_handleLeave (s : DO.DState) (id x : String) :
    DO.peerOpen (DO.handleLeave s id).1 x = DO.peerOpen s x := by
  simp only [DO.handleLeave]
  split
  · rfl
  next peer hpeer =>
    split
    · rfl
    next rid hrid =>
      split
      next room hroom =>
        split
        next partner hpartner =>
          simp only [DO.peerOpen]
          by_cases hx : x = id
          · subst hx
            rw [aget_aset_self, hpeer]
          · rw [aget_aset_ne _ _ _ _ hx]
            by_cases hx2 : x = (if room.peer1 = id then room.peer2 else room.peer1)
            · subst hx2
              rw [aget_aset_self, hpartner]
            · rw [aget_aset_ne _ _ _ _ hx2]
        next hpartner =>
          simp only [DO.peerOpen]
          by_cases hx : x = id
          · subst hx
            rw [aget_aset_self, hpeer]
          · rw [aget_aset_ne _ _ _ _ hx]
      next hroom =>
        simp only [DO.peerOpen]
        by_cases hx : x = id
        · subst hx
          rw [aget_aset_self, hpeer]
        · rw [aget_aset_ne _ _ _ _ hx]

theorem DO.handleLeave_nextRoom (s : DO.DState) (id : String) :
    (DO.handleLeave s id).1.nextRoom = s.nextRoom := by
  simp only [DO.handleLeave]
  split
  · rfl
  · split
    · rfl
    · split
      · split <;> rfl
      · rfl

theorem DO.handleLeave_queue_sub (s : DO.DState) (id x : String)
    (h : x ∈ (DO.handleLeave s id).1.queue) : x ∈ s.queue := by
  revert h
  simp only [DO.handleLeave]
  split
  · exact fun h => h
  · split
    · exact fun h => List.mem_of_mem_filter h
    · split
      · split <;> exact fun h => List.mem_of_mem_filter h
      · exact fun h => List.mem_of_mem_filter h

/-- Scanning the queue for a partner either pairs the joiner with some OPEN
registered peer from the scanned list (under the fresh room id, bumping the
counter), or leaves the counter unchanged and the joiner enqueued. -/
theorem DO.joinScan_spec (p : String) (peer : DO.DPeer) :
    ∀ (l : List String) (s : DO.DState),
    (∃ q, q ∈ l ∧ DO.peerOpen s q = true ∧
        aget (DO.joinScan p peer s l).1.rooms s.nextRoom
          = some { peer1 := q, peer2 := p } ∧
        (DO.joinScan p peer s l).1.nextRoom = s.nextRoom + 1) ∨
    ((DO.joinScan p peer s l).1.nextRoom = s.nextRoom ∧
      p ∈ (DO.joinScan p peer s l).1.queue) := by
  intro l
  induction l with
  | nil =>
    intro s
    exact Or.inr ⟨rfl, List.mem_singleton_self p⟩
  | cons q rest ih =>
    intro s
    cases hpq : aget s.peers q with
    | none =>
      rw [show DO.joinScan p peer s (q :: rest) = DO.joinScan p peer s rest by
        simp [DO.joinScan, hpq]]
      rcases ih s with ⟨q2, hm, ho, hr, hn⟩ | hre
      · exact Or.inl ⟨q2, List.mem_cons_of_mem _ hm, ho, hr, hn⟩
      · exact Or.inr hre
    | some partner =>
      by_cases hw : partner.wsOpen = true
      · refine Or.inl ⟨q, List.mem_cons_self _ _, ?_, ?_, ?_⟩
        · simp [DO.peerOpen, hpq, hw]
        · simp [DO.joinScan, hpq, hw, aget_aset_self]
        · simp [DO.joinScan, hpq, hw]
      · rw [show DO.joinScan p peer s (q :: rest) = DO.joinScan p peer s rest by
          simp [DO.joinScan, hpq, hw]]
        rcases ih s with ⟨q2, hm, ho, hr, hn⟩ | hre
        · exact Or.inl ⟨q2, List.mem_cons_of_mem _ hm, ho, hr, hn⟩
        · exact Or.inr hre

/-- C10.  In the Durable Object implementation, a join by a registered peer
with an OPEN socket never pairs it with a dequeued partner whose socket is
not OPEN: either a room is formed under the fresh room id with some partner
`q` that was in the queue and whose socket was OPEN (and the joiner's socket
was OPEN by hypothesis), or no room is formed at all (the room counter is
unchanged - it is incremented exactly when a room is created) and the joiner
ends up in the queue. -/
theorem do_join_live_partner_only (s : DO.DState) (p : String)
    (hopen : DO.peerOpen s p = true) :
    (∃ q, q ∈ s.queue ∧ DO.peerOpen s q = true ∧
        aget (DO.handleJoin s p).1.rooms s.nextRoom = some { peer1 := q, peer2 := p } ∧
        (DO.handleJoin s p).1.nextRoom = s.nextRoom + 1) ∨
    ((DO.handleJoin s p).1.nextRoom = s.nextRoom ∧ p ∈ (DO.handleJoin s p).1.queue) := by
  obtain ⟨pj, hpj, hjo⟩ : ∃ pj, aget s.peers p = some pj ∧ pj.wsOpen = true := by
    unfold DO.peerOpen at hopen
    cases h : aget s.peers p with
    | none => rw [h] at hopen; exact absurd hopen (by simp)
    | some pj => rw [h] at hopen; exact ⟨pj, rfl, hopen⟩
  simp only [DO.handleJoin, hpj]
  generalize hg : (if pj.roomId.isSome = true then DO.handleLeave s p else (s, [])) = p1
  have hOpenP : ∀ x, DO.peerOpen p1.1 x = DO.peerOpen s x := by
    intro x
    rw [← hg]
    split
    · exact DO.peerOpen_handleLeave s p x
    · rfl
  have hNextP : p1.1.nextRoom = s.nextRoom := by
    rw [← hg]
    split
    · exact DO.handleLeave_nextRoom s p
    · rfl
  have hSubP : ∀ x, x ∈ p1.1.queue → x ∈ s.queue := by
    intro x
    rw [← hg]
    split
    · exact DO.handleLeave_queue_sub s p x
    · exact fun h => h
  rcases DO.joinScan_spec p pj
      (p1.1.queue.filter (fun id => id ≠ p))
      ⟨p1.1.peers, p1.1.rooms, p1.1.queue.filter (fun id => id ≠ p), p1.1.nextRoom⟩ with
    ⟨q, hm, ho, hr, hn⟩ | ⟨h1, h2⟩
  · refine Or.inl ⟨q, ?_, ?_, ?_, ?_⟩
    · exact hSubP q (List.mem_of_mem_filter hm)
    · rw [← hOpenP q]
      exact ho
    · rw [← hNextP]
      exact hr
    · rw [← hNextP]
      exact hn
  · refine Or.inr ⟨?_, ?_⟩
    · rw [← hNextP]
      exact h1
    · exact h2

/-- Witness for C10: on `DO.sampleStaleState` the hypothesis holds and the
theorem applies; there the stale head W is discarded and P is paired with V. -/
theorem do_join_live_partner_only_witness :
    DO.peerOpen DO.sampleStaleState "P" = true ∧
    ((∃ q, q ∈ DO.sampleStaleState.queue ∧ DO.peerOpen DO.sampleStaleState q = true ∧
        aget (DO.handleJoin DO.sampleStaleState "P").1.rooms DO.sampleStaleState.nextRoom
          = some { peer1 := q, peer2 := "P" } ∧
        (DO.handleJoin DO.sampleStaleState "P").1.nextRoom
          = DO.sampleStaleState.nextRoom + 1) ∨
     ((DO.handleJoin DO.sampleStaleState "P").1.nextRoom = DO.sampleStaleState.nextRoom ∧
      "P" ∈ (DO.handleJoin DO.sampleStaleState "P").1.queue)) :=
  ⟨by decide, do_join_live_partner_only DO.sampleStaleState "P" (by decide)⟩

/-- Filtering a list by "not equal to j" is the identity when j is absent. -/
theorem filter_ne_of_not_mem (l : List String) (j : String) (h : j ∉ l) :
    l.filter (fun id => id ≠ j) = l := by
  apply List.filter_eq_self.mpr
  intro a ha
  simp only [ne_eq, decide_eq_true_eq]
  exact fun e => h (e ▸ ha)

/-- C3 (counterexample).  The claim says each matched peer receives
`{type:"matched", role, peerId:<partner id>}` in every formed room.  In the
Durable Object implementation the `matched` notification carries no peer id
at all: the message delivered to X when it is matched with Y is identical to
the one delivered when it is matched with Z, although Y and Z are different
peers, so it cannot contain the partner's id. -/
theorem do_matched_carries_no_peer_id :
    (DO.run DO.initState
        [.connect "X", .connect "Y", .msg "X" .join, .msg "Y" .join]).2[1]? =
      some (.send "X" (.matched .answerer)) ∧
    (DO.run DO.initState
        [.connect "X", .connect "Z", .msg "X" .join, .msg "Z" .join]).2[1]? =
      some (.send "X" (.matched .answerer)) ∧
    ("Y" : String) ≠ "Z" := by
  decide

/-- C3 (amended).  Whenever a join matches a waiting peer, exactly two
matched notifications are emitted: the peer that was waiting receives role
`answerer` and the joiner receives role `offerer`, deterministically in every
formed room and in both implementations.  In the Bun implementation each
notification additionally carries the partner's peer id; in the Durable
Object implementation the notifications carry only the role. -/
theorem matched_notifications_roles
    (sB : Bun.BState) (w j : String) (rest : List String) (hq : sB.queue = w :: rest)
    (sD : DO.DState) (jD qD : String) (restD : List String) (pj pq : DO.DPeer)
    (hpj : aget sD.peers jD = some pj) (hr : pj.roomId = none) (hjo : pj.wsOpen = true)
    (hnm : jD ∉ sD.queue) (hdq : sD.queue = qD :: restD)
    (hq2 : aget sD.peers qD = some pq) (hopen : pq.wsOpen = true) :
    (Bun.handleJoin sB j).2 =
      [.send w (.matched .answerer j), .send j (.matched .offerer w)] ∧
    (DO.handleJoin sD jD).2 =
      [.send qD (.matched .answerer), .send jD (.matched .offerer)] := by
  constructor
  · rw [Bun.handleJoin_match_eq sB w rest j hq]
  · have hfq : sD.queue.filter (fun id => id ≠ jD) = qD :: restD := by
      rw [filter_ne_of_not_mem sD.queue jD hnm, hdq]
    rw [DO.handleJoin_pairs_head sD jD qD restD pj pq hpj hr hjo hfq hq2 hopen]

/-- Witness for C3 (amended): the hypotheses hold on the concrete waiting
states, and the two joins emit exactly the claimed notifications. -/
theorem matched_notifications_roles_witness :
    Bun.waitingW.queue = "W" :: [] ∧
    aget DO.waitingQ.peers "J" = some { wsOpen := true, roomId := none } ∧
    ("J" ∉ DO.waitingQ.queue) ∧
    DO.waitingQ.queue = "Q" :: [] ∧
    aget DO.waitingQ.peers "Q" = some { wsOpen := true, roomId := none } ∧
    ((Bun.handleJoin Bun.waitingW "J").2 =
        [.send "W" (.matched .answerer "J"), .send "J" (.matched .offerer "W")] ∧
     (DO.handleJoin DO.waitingQ "J").2 =
        [.send "Q" (.matched .answerer), .send "J" (.matched .offerer)]) :=
  ⟨by decide, by decide, by decide, by decide, by decide,
   matched_notifications_roles Bun.waitingW "W" "J" [] (by decide)
     DO.waitingQ "J" "Q" [] { wsOpen := true, roomId := none }
     { wsOpen := true, roomId := none }
     (by decide) rfl rfl (by decide) (by decide) (by decide) rfl⟩

/-- C4.  Matching is strict FIFO in both implementations: a join that finds
the queue non-empty pairs the joiner with the queue head.  In the Bun
implementation, with A ahead of B, a join by C pairs C with A and leaves B
(still unmatched) at the head of the queue, so A is matched before B.  In
the Durable Object, a join by a roomless joiner pairs it with the queue
head when that head is registered and OPEN. -/
theorem fifo_head_matching
    (sB : Bun.BState) (A B C : String) (rest : List String)
    (hq : sB.queue = A :: B :: rest)
    (hBroom : aget sB.rooms B = none) (hBA : B ≠ A) (hBC : B ≠ C)
    (sD : DO.DState) (jD qD : String) (restD : List String) (pj pq : DO.DPeer)
    (hpj : aget sD.peers jD = some pj) (hr : pj.roomId = none) (hjo : pj.wsOpen = true)
    (hnm : jD ∉ sD.queue) (hdq : sD.queue = qD :: restD)
    (hq2 : aget sD.peers qD = some pq) (hopen : pq.wsOpen = true) :
    (aget (Bun.handleJoin sB C).1.rooms C = some { peer1 := A, peer2 := C } ∧
     (Bun.handleJoin sB C).1.queue = B :: rest ∧
     aget (Bun.handleJoin sB C).1.rooms B = none) ∧
    (aget (DO.handleJoin sD jD).1.rooms sD.nextRoom
        = some { peer1 := qD, peer2 := jD } ∧
     (DO.handleJoin sD jD).1.queue = restD) := by
  constructor
  · rw [Bun.handleJoin_match_eq sB A (B :: rest) C hq]
    refine ⟨aget_aset_self _ _ _, rfl, ?_⟩
    rw [aget_aset_ne _ _ _ _ hBC, aget_aset_ne _ _ _ _ hBA]
    exact hBroom
  · have hfq : sD.queue.filter (fun id => id ≠ jD) = qD :: restD := by
      rw [filter_ne_of_not_mem sD.queue jD hnm, hdq]
    rw [DO.handleJoin_pairs_head sD jD qD restD pj pq hpj hr hjo hfq hq2 hopen]
    exact ⟨aget_aset_self _ _ _, rfl⟩

/-- Witness for C4: with A and B waiting in that order, a join by C matches
A, and B remains queued at the head; the Durable Object join matches the
queue head Q. -/
theorem fifo_head_matching_witness :
    Bun.waitingAB.queue = "A" :: "B" :: [] ∧
    aget Bun.waitingAB.rooms "B" = none ∧
    ("B" : String) ≠ "A" ∧ ("B" : String) ≠ "C" ∧
    ("J" ∉ DO.waitingQ.queue) ∧
    ((aget (Bun.handleJoin Bun.waitingAB "C").1.rooms "C"
        = some { peer1 := "A", peer2 := "C" } ∧
      (Bun.handleJoin Bun.waitingAB "C").1.queue = "B" :: [] ∧
      aget (Bun.handleJoin Bun.waitingAB "C").1.rooms "B" = none) ∧
     (aget (DO.handleJoin DO.waitingQ "J").1.rooms DO.waitingQ.nextRoom
        = some { peer1 := "Q", peer2 := "J" } ∧
      (DO.handleJoin DO.waitingQ "J").1.queue = [])) :=
  ⟨by decide, by decide, by decide, by decide, by decide,
   fifo_head_matching Bun.waitingAB "A" "B" "C" [] (by decide) (by decide)
     (by decide) (by decide)
     DO.waitingQ "J" "Q" [] { wsOpen := true, roomId := none }
     { wsOpen := true, roomId := none }
     (by decide) rfl rfl (by decide) (by decide) (by decide) rfl⟩

/-- C5 (counterexample).  The claim says a negotiation message from an
unpaired sender always produces an "error: not paired" notification back to
the sender.  In the Bun implementation the message is silently dropped: the
queued peer Z's offer produces no output at all (and Z stays queued).  In
the Durable Object an error is produced, but its text is "Not in a room",
not "not paired". -/
theorem bun_unpaired_forward_silent :
    (Bun.handleMessage (Bun.run Bun.initState [.msg "Z" (.msg .join)]).1 "Z"
        (.msg (.offer "abc"))).2 = [] ∧
    (Bun.handleMessage (Bun.run Bun.initState [.msg "Z" (.msg .join)]).1 "Z"
        (.msg (.offer "abc"))).1.queue = ["Z"] ∧
    (DO.run DO.initState [.connect "Z", .msg "Z" .join,
        .msg "Z" (.neg .offer (some "abc") none)]).2 =
      [.send "Z" .queued, .send "Z" (.error "Not in a room")] ∧
    ("Not in a room" : String) ≠ "not paired" := by
  decide

/-- C5 (amended).  A negotiation message from a sender without a room is
dropped (delivered to no one) and leaves the broker state - including the
sender's queue membership - unchanged, in both implementations.  The Durable
Object notifies the sender with `{type:"error", message:"Not in a room"}`;
the Bun implementation emits no notification at all. -/
theorem unpaired_forward_dropped
    (sB : Bun.BState) (a : String) (hB : aget sB.rooms a = none) (m : Bun.SMsg)
    (sD : DO.DState) (d : String) (pd : DO.DPeer)
    (hd : aget sD.peers d = some pd) (hOpen : pd.wsOpen = true)
    (hRoom : pd.roomId = none) (k : NegKind) (sdp cand : Option String) :
    Bun.forwardToPartner sB a m = (sB, []) ∧
    DO.forwardToPartner sD d k sdp cand = (sD, [.send d (.error "Not in a room")]) := by
  constructor
  · simp [Bun.forwardToPartner, Bun.getPartner, hB]
  · simp [DO.forwardToPartner, hd, hRoom, DO.sendToPeer, hOpen]

/-- Witness for C5 (amended): a queued lone peer Z sending an offer - the
states are unchanged (Z stays queued) and only the Durable Object replies. -/
theorem unpaired_forward_dropped_witness :
    aget Bun.queuedZ.rooms "Z" = none ∧
    aget DO.queuedZ.peers "Z" = some { wsOpen := true, roomId := none } ∧
    (Bun.forwardToPartner Bun.queuedZ "Z" (.offer "abc") = (Bun.queuedZ, []) ∧
     DO.forwardToPartner DO.queuedZ "Z" .offer (some "abc") none =
       (DO.queuedZ, [.send "Z" (.error "Not in a room")])) :=
  ⟨by decide, by decide,
   unpaired_forward_dropped Bun.queuedZ "Z" (by decide) (.offer "abc")
     DO.queuedZ "Z" { wsOpen := true, roomId := none } (by decide) rfl rfl
     .offer (some "abc") none⟩

/-- C6.  A negotiation message sent by a paired peer is delivered exactly
once, with its payload unmodified, to the room's other member and to no one
else (in particular it is never echoed to the sender): in both
implementations the emitted action list is exactly the one delivery to the
partner, and the state is unchanged. -/
theorem relay_exact_delivery
    (sB : Bun.BState) (a b : String) (room : Bun.Room)
    (hab : a ≠ b) (hroom : aget sB.rooms a = some room)
    (hmem : room = { peer1 := a, peer2 := b } ∨ room = { peer1 := b, peer2 := a })
    (sdp cand : String)
    (sD : DO.DState) (x y : String) (px py : DO.DPeer) (rid : Nat) (droom : DO.DRoom)
    (hxy : x ≠ y) (hx : aget sD.peers x = some px) (hxr : px.roomId = some rid)
    (hdr : aget sD.rooms rid = some droom)
    (hdm : droom = { peer1 := x, peer2 := y } ∨ droom = { peer1 := y, peer2 := x })
    (hy : aget sD.peers y = some py) (hyo : py.wsOpen = true)
    (k : NegKind) (sd cd : Option String) :
    (Bun.handleMessage sB a (.msg (.offer sdp)) = (sB, [.send b (.offer sdp)]) ∧
     Bun.handleMessage sB a (.msg (.answer sdp)) = (sB, [.send b (.answer sdp)]) ∧
     Bun.handleMessage sB a (.msg (.ice cand)) = (sB, [.send b (.ice cand)])) ∧
    DO.handleMessage sD x (.neg k sd cd) = (sD, [.send y (.neg k sd cd)]) := by
  have hpartner : Bun.getPartner sB a = some b := by
    rcases hmem with rfl | rfl
    · simp [Bun.getPartner, hroom]
    · simp [Bun.getPartner, hroom, Ne.symm hab]
  have hpid : (if droom.peer1 = x then droom.peer2 else droom.peer1) = y := by
    rcases hdm with rfl | rfl
    · simp
    · simp [Ne.symm hxy]
  refine ⟨⟨?_, ?_, ?_⟩, ?_⟩
  · simp [Bun.handleMessage, Bun.forwardToPartner, hpartner]
  · simp [Bun.handleMessage, Bun.forwardToPartner, hpartner]
  · simp [Bun.handleMessage, Bun.forwardToPartner, hpartner]
  · simp [DO.handleMessage, DO.forwardToPartner, hx, hxr, hdr, hpid,
      DO.sendToPeer, hy, hyo]

/-- Witness for C6: on the concrete paired states, an offer with sdp "abc"
from X (resp. U) is delivered verbatim to Y (resp. V) alone. -/
theorem relay_exact_delivery_witness :
    ("X" : String) ≠ "Y" ∧
    aget Bun.pairedXY.rooms "X" = some { peer1 := "X", peer2 := "Y" } ∧
    aget DO.pairedUV.peers "U" = some { wsOpen := true, roomId := some 0 } ∧
    aget DO.pairedUV.rooms 0 = some { peer1 := "U", peer2 := "V" } ∧
    aget DO.pairedUV.peers "V" = some { wsOpen := true, roomId := some 0 } ∧
    ((Bun.handleMessage Bun.pairedXY "X" (.msg (.offer "abc")) =
        (Bun.pairedXY, [.send "Y" (.offer "abc")]) ∧
      Bun.handleMessage Bun.pairedXY "X" (.msg (.answer "abc")) =
        (Bun.pairedXY, [.send "Y" (.answer "abc")]) ∧
      Bun.handleMessage Bun.pairedXY "X" (.msg (.ice "cnd")) =
        (Bun.pairedXY, [.send "Y" (.ice "cnd")])) ∧
     DO.handleMessage DO.pairedUV "U" (.neg .offer (some "abc") none) =
        (DO.pairedUV, [.send "V" (.neg .offer (some "abc") none)])) :=
  ⟨by decide, by decide, by decide, by decide, by decide,
   relay_exact_delivery Bun.pairedXY "X" "Y" { peer1 := "X", peer2 := "Y" }
     (by decide) (by decide) (Or.inl rfl) "abc" "cnd"
     DO.pairedUV "U" "V" { wsOpen := true, roomId := some 0 }
     { wsOpen := true, roomId := some 0 } 0 { peer1 := "U", peer2 := "V" }
     (by decide) (by decide) rfl (by decide) (Or.inl rfl) (by decide) rfl
     .offer (some "abc") none⟩

/-- C9.  An unparsable frame or an unrecognized message type produces exactly
one error notification, delivered to the sender alone; the broker state is
unchanged in every component and no connection is closed (the emitted action
list contains no close action), in both implementations. -/
theorem malformed_unknown_error_only
    (sB : Bun.BState) (idB : String)
    (sD : DO.DState) (idD : String) (pd : DO.DPeer)
    (hd : aget sD.peers idD = some pd) (hOpen : pd.wsOpen = true) :
    (Bun.handleMessage sB idB .malformed =
        (sB, [.send idB (.error "Invalid JSON")]) ∧
     Bun.handleMessage sB idB .unknown =
        (sB, [.send idB (.error "Unknown message type")])) ∧
    (DO.handleMessage sD idD .malformed =
        (sD, [.send idD (.error "Invalid message format")]) ∧
     DO.handleMessage sD idD .unknown =
        (sD, [.send idD (.error "Unknown message type")])) := by
  refine ⟨⟨rfl, rfl⟩, ?_, ?_⟩ <;>
    simp [DO.handleMessage, DO.sendToPeer, hd, hOpen]

/-- Witness for C9: a malformed and an unknown frame from the queued lone
peer Z produce exactly the error reply and leave the states unchanged. -/
theorem malformed_unknown_error_only_witness :
    aget DO.queuedZ.peers "Z" = some { wsOpen := true, roomId := none } ∧
    ((Bun.handleMessage Bun.queuedZ "Z" .malformed =
        (Bun.queuedZ, [.send "Z" (.error "Invalid JSON")]) ∧
      Bun.handleMessage Bun.queuedZ "Z" .unknown =
        (Bun.queuedZ, [.send "Z" (.error "Unknown message type")])) ∧
     (DO.handleMessage DO.queuedZ "Z" .malformed =
        (DO.queuedZ, [.send "Z" (.error "Invalid message format")]) ∧
      DO.handleMessage DO.queuedZ "Z" .unknown =
        (DO.queuedZ, [.send "Z" (.error "Unknown message type")]))) :=
  ⟨by decide,
   malformed_unknown_error_only Bun.queuedZ "Z" DO.queuedZ "Z"
     { wsOpen := true, roomId := none } (by decide) rfl⟩

/-- C7.  Dissolving a pairing notifies the remaining partner exactly once,
and the dissolution is idempotent: with X and Y paired (and in neither
queue), X's leave emits exactly one peer-left to Y; a second leave by X, a
transport close for X, and a leave by the already-unpaired Y each emit
nothing (no further peer-left and no error), in both implementations. -/
theorem leave_close_idempotent
    (sB : Bun.BState) (X Y : String) (r : Bun.Room)
    (hXY : X ≠ Y)
    (hrX : aget sB.rooms X = some r)
    (hmem : r = { peer1 := X, peer2 := Y } ∨ r = { peer1 := Y, peer2 := X })
    (hpX : aget sB.peers X = some ()) (hpY : aget sB.peers Y = some ())
    (hqX : X ∉ sB.queue) (hqY : Y ∉ sB.queue)
    (sD : DO.DState) (U V : String) (pU pV : DO.DPeer) (rid : Nat) (droom : DO.DRoom)
    (hUV : U ≠ V)
    (hU : aget sD.peers U = some pU) (hUr : pU.roomId = some rid)
    (hV : aget sD.peers V = some pV) (hVo : pV.wsOpen = true)
    (hroomD : aget sD.rooms rid = some droom)
    (hdm : droom = { peer1 := U, peer2 := V } ∨ droom = { peer1 := V, peer2 := U }) :
    ((Bun.handleLeave sB X).2 = [.send Y .peerLeft] ∧
     (Bun.handleLeave (Bun.handleLeave sB X).1 X).2 = [] ∧
     (Bun.handleClose (Bun.handleLeave sB X).1 X).2 = [] ∧
     (Bun.handleLeave (Bun.handleLeave sB X).1 Y).2 = []) ∧
    ((DO.handleLeave sD U).2 = [.send V .peerLeft] ∧
     (DO.handleLeave (DO.handleLeave sD U).1 U).2 = [] ∧
     (DO.handleLeave (DO.handleLeave sD U).1 V).2 = [] ∧
     (DO.closeWs (DO.handleLeave sD U).1 U).2 = [] ∧
     (DO.closeWs (DO.closeWs (DO.handleLeave sD U).1 U).1 U).2 = []) := by
  have hpartnerB : (if r.peer1 = X then r.peer2 else r.peer1) = Y := by
    rcases hmem with rfl | rfl
    · simp
    · simp [Ne.symm hXY]
  have hBL : Bun.handleLeave sB X =
      ({ peers := adel sB.peers X, queue := sB.queue,
         rooms := adel (adel sB.rooms r.peer1) r.peer2 }, [.send Y .peerLeft]) := by
    simp [Bun.handleLeave, Bun.removePeer, hpX, hqX, hrX, hpartnerB]
  have hroomsY : aget (adel (adel sB.rooms r.peer1) r.peer2) Y = none := by
    rcases hmem with rfl | rfl
    · exact aget_adel_self _ _
    · rw [aget_adel_ne _ _ _ (Ne.symm hXY)]
      exact aget_adel_self _ _
  have hpartnerD : (if droom.peer1 = U then droom.peer2 else droom.peer1) = V := by
    rcases hdm with rfl | rfl
    · simp
    · simp [Ne.symm hUV]
  have hDL : DO.handleLeave sD U =
      ({ peers := aset (aset sD.peers V { pV with roomId := none }) U
            { pU with roomId := none },
         rooms := adel sD.rooms rid,
         queue := sD.queue.filter (fun id => id ≠ U),
         nextRoom := sD.nextRoom }, [.send V .peerLeft]) := by
    simp [DO.handleLeave, hU, hUr, hroomD, hpartnerD, DO.sendToPeer, hV, hVo]
  refine ⟨⟨by rw [hBL], ?_, ?_, ?_⟩, ⟨by rw [hDL], ?_, ?_, ?_, ?_⟩⟩
  · rw [hBL]
    simp [Bun.handleLeave, Bun.removePeer, aget_adel_self]
  · rw [hBL]
    simp [Bun.handleClose, Bun.removePeer, aget_adel_self]
  · rw [hBL]
    have hgetY : aget (adel sB.peers X) Y = some () := by
      rw [aget_adel_ne _ _ _ (Ne.symm hXY)]
      exact hpY
    simp [Bun.handleLeave, Bun.removePeer, hgetY, hqY, hroomsY]
  · rw [hDL]
    simp [DO.handleLeave, aget_aset_self]
  · rw [hDL]
    have hgetV : aget (aset (aset sD.peers V { pV with roomId := none }) U
        { pU with roomId := none }) V = some { pV with roomId := none } := by
      rw [aget_aset_ne _ _ _ _ (Ne.symm hUV)]
      exact aget_aset_self _ _ _
    simp [DO.handleLeave, hgetV]
  · rw [hDL]
    simp [DO.closeWs, DO.handleLeave, aget_aset_self]
  · rw [hDL]
    simp [DO.closeWs, DO.handleLeave, aget_aset_self, aget_adel_self]

/-- Witness for C7: on the concrete paired states (X, Y) and (U, V), the
first leave emits exactly one peer-left and every later leave/close of
either member emits nothing. -/
theorem leave_close_idempotent_witness :
    ("X" : String) ≠ "Y" ∧
    aget Bun.pairedXY.rooms "X" = some { peer1 := "X", peer2 := "Y" } ∧
    ("X" ∉ Bun.pairedXY.queue) ∧ ("Y" ∉ Bun.pairedXY.queue) ∧
    aget DO.pairedUV.peers "U" = some { wsOpen := true, roomId := some 0 } ∧
    aget DO.pairedUV.rooms 0 = some { peer1 := "U", peer2 := "V" } ∧
    (((Bun.handleLeave Bun.pairedXY "X").2 = [.send "Y" .peerLeft] ∧
      (Bun.handleLeave (Bun.handleLeave Bun.pairedXY "X").1 "X").2 = [] ∧
      (Bun.handleClose (Bun.handleLeave Bun.pairedXY "X").1 "X").2 = [] ∧
      (Bun.handleLeave (Bun.handleLeave Bun.pairedXY "X").1 "Y").2 = []) ∧
     ((DO.handleLeave DO.pairedUV "U").2 = [.send "V" .peerLeft] ∧
      (DO.handleLeave (DO.handleLeave DO.pairedUV "U").1 "U").2 = [] ∧
      (DO.handleLeave (DO.handleLeave DO.pairedUV "U").1 "V").2 = [] ∧
      (DO.closeWs (DO.handleLeave DO.pairedUV "U").1 "U").2 = [] ∧
      (DO.closeWs (DO.closeWs (DO.handleLeave DO.pairedUV "U").1 "U").1 "U").2 = [])) :=
  ⟨by decide, by decide, by decide, by decide, by decide, by decide,
   leave_close_idempotent Bun.pairedXY "X" "Y" { peer1 := "X", peer2 := "Y" }
     (by decide) (by decide) (Or.inl rfl) (by decide) (by decide)
     (by decide) (by decide)
     DO.pairedUV "U" "V" { wsOpen := true, roomId := some 0 }
     { wsOpen := true, roomId := some 0 } 0 { peer1 := "U", peer2 := "V" }
     (by decide) (by decide) rfl (by decide) rfl (by decide) (Or.inl rfl)⟩

/-- C8 (counterexample).  The claim says that after processing a leave the
peer is still registered (lookup succeeds).  In the Bun implementation
`handleLeave` calls `removePeer`, which deletes the peer from the registry:
after X and Y pair and X sends leave, X - registered just before the leave -
is no longer found. -/
theorem bun_leave_unregisters :
    aget (Bun.run Bun.initState
      [.msg "X" (.msg .join), .msg "Y" (.msg .join)]).1.peers "X" = some () ∧
    aget (Bun.run Bun.initState
      [.msg "X" (.msg .join), .msg "Y" (.msg .join),
       .msg "X" (.msg .leave)]).1.peers "X" = none := by
  decide

/-- C8 (amended).  Processing a leave dissolves the peer's room and removes
it from the waiting queue.  In the Durable Object implementation the peer
stays registered (its record survives with `roomId` cleared) and a future
join on the same connection proceeds (re-enqueueing it when no one is
waiting).  In the Bun implementation, leave also unregisters the peer -
lookup fails afterwards - but a future join on the same connection still
succeeds, because join re-registers the peer unconditionally. -/
theorem leave_registry_effect
    (sB : Bun.BState) (x : String)
    (sD : DO.DState) (u : String) (pu : DO.DPeer)
    (hu : aget sD.peers u = some pu) :
    (aget (Bun.handleLeave sB x).1.peers x = none ∧
     aget (Bun.handleJoin (Bun.handleLeave sB x).1 x).1.peers x = some ()) ∧
    ((∃ pu2, aget (DO.handleLeave sD u).1.peers u = some pu2 ∧ pu2.roomId = none) ∧
     ((DO.handleLeave sD u).1.queue = [] →
       (DO.handleJoin (DO.handleLeave sD u).1 u).1.queue = [u])) := by
  have hB1 : aget (Bun.handleLeave sB x).1.peers x = none := by
    rcases haget : aget sB.peers x with _ | v
    · simp [Bun.handleLeave, Bun.removePeer, haget]
    · by_cases hq : x ∈ sB.queue
      · simp [Bun.handleLeave, Bun.removePeer, haget, hq, aget_adel_self]
      · rcases hroom : aget sB.rooms x with _ | room
        · simp [Bun.handleLeave, Bun.removePeer, haget, hq, hroom, aget_adel_self]
        · simp [Bun.handleLeave, Bun.removePeer, haget, hq, hroom, aget_adel_self]
  have hD1 : ∃ pu2, aget (DO.handleLeave sD u).1.peers u = some pu2 ∧
      pu2.roomId = none := by
    rcases hr : pu.roomId with _ | rid
    · exact ⟨pu, by simp [DO.handleLeave, hu, hr], hr⟩
    · rcases hroomu : aget sD.rooms rid with _ | room
      · exact ⟨{ pu with roomId := none },
          by simp [DO.handleLeave, hu, hr, hroomu, aget_aset_self], rfl⟩
      · exact ⟨{ pu with roomId := none },
          by simp [DO.handleLeave, hu, hr, hroomu, aget_aset_self], rfl⟩
  refine ⟨⟨hB1, Bun.handleJoin_registers _ x⟩, hD1, ?_⟩
  intro hqe
  obtain ⟨pu2, hget2, hr2⟩ := hD1
  have hjn := DO.handleJoin_noPartner (DO.handleLeave sD u).1 u pu2 hget2 hr2
    (by rw [hqe]; rfl)
  rw [hjn]

/-- Witness for C8 (amended): X leaves its pairing in the Bun state - it is
unregistered but a new join re-registers it; U leaves its pairing in the DO
state - it stays registered with its room cleared and its next join, finding
the queue empty, re-enqueues it. -/
theorem leave_registry_effect_witness :
    aget DO.pairedUV.peers "U" = some { wsOpen := true, roomId := some 0 } ∧
    ((aget (Bun.handleLeave Bun.pairedXY "X").1.peers "X" = none ∧
      aget (Bun.handleJoin (Bun.handleLeave Bun.pairedXY "X").1 "X").1.peers "X"
        = some ()) ∧
     ((∃ pu2, aget (DO.handleLeave DO.pairedUV "U").1.peers "U" = some pu2 ∧
        pu2.roomId = none) ∧
      ((DO.handleLeave DO.pairedUV "U").1.queue = [] →
        (DO.handleJoin (DO.handleLeave DO.pairedUV "U").1 "U").1.queue = ["U"]))) :=
  ⟨by decide,
   leave_registry_effect Bun.pairedXY "X" DO.pairedUV "U"
     { wsOpen := true, roomId := some 0 } (by decide)⟩
